import Mathlib

/-!
# oneflow: scalar binary kernels, BroadcastDivOp signatures, RtBlobDesc sizes

A shallow embedding of

* `oneflow/customized/kernels/scalar_binary_kernel.cpp`
  (`LeftBinaryKernel`, `RightBinaryKernel`, `REGISTER_KERNEL`),
* `oneflow/core/operator/broadcast_div_op.cpp`
  (`BroadcastDivOp::VirtualGetSbpSignatures`),
* `oneflow/core/register/runtime_blob_desc.h` (`RtBlobDesc`),

followed by the properties proved about them.
-/

namespace oneflow

set_option linter.unusedVariables false

/-! ## Memory and the `for` statement -/

/-- Element-addressed memory holding values of the kernel's element type `T`.
A pointer is the address of a cell; `none` marks a cell that belongs to no
allocated buffer, so that touching it is a fault. -/
abbrev Mem (T : Type) := Nat → Option T

/-- Reading `p[0]` for a pointer `p`. -/
def Mem.load {T : Type} (m : Mem T) (p : Nat) : Option T := m p

/-- Writing `p[0] = v` for a pointer `p`; faults outside allocated cells. -/
def Mem.store {T : Type} (m : Mem T) (p : Nat) (v : T) : Option (Mem T) :=
  if (m p).isSome then some (fun q => if q = p then some v else m q) else none

/-- The statement `for (int64_t i = i0; i < n; ++i) body(i)` run on state `st`.
The first argument bounds the number of iterations; when it is exhausted while
`i < n` still holds the result is `none`. -/
def forLoop {σ : Type} (n : Int) (body : Nat → σ → Option σ) : Nat → Nat → σ → Option σ
  | 0, i, st => if (i : Int) < n then none else some st
  | fuel + 1, i, st =>
    if (i : Int) < n then (body i st).bind (forLoop n body fuel (i + 1)) else some st

/-! ## scalar_binary_kernel.cpp -/

/-- Modelled from the spec: what `GetInPtr<T>`, `GetOutPtr<T>`,
`GetScalarOperand<T>` and `GetElemCnt` of `scalar_binary_kernel.h` (not part of
the sources at hand) read from a `user_op::KernelComputeContext`: the input and
output buffer pointers, the scalar operand, and the element count of the output
tensor. -/
structure KernelComputeContext (T : Type) where
  in_ptr : Nat
  out_ptr : Nat
  scalar_operand : T
  elem_cnt : Int

/-- Method `LeftBinaryKernel<binary_func, DeviceType::kCPU, T>::Compute`, with
`Invoke` standing for `binary_func<T>::Invoke`. -/
def LeftBinaryKernel.Compute {T : Type} (Invoke : T → T → T)
    (ctx : KernelComputeContext T) (mem : Mem T) : Option (Mem T) :=
  let in_ptr := ctx.in_ptr
  let out_ptr := ctx.out_ptr
  let scalar_operand := ctx.scalar_operand
  let n := ctx.elem_cnt
  if out_ptr = in_ptr then
    forLoop n (fun i m => (m.load (out_ptr + i)).bind
      (fun x => m.store (out_ptr + i) (Invoke scalar_operand x))) n.toNat 0 mem
  else
    forLoop n (fun i m => (m.load (in_ptr + i)).bind
      (fun x => m.store (out_ptr + i) (Invoke scalar_operand x))) n.toNat 0 mem

/-- Method `RightBinaryKernel<binary_func, DeviceType::kCPU, T>::Compute`, with
`Invoke` standing for `binary_func<T>::Invoke`. -/
def RightBinaryKernel.Compute {T : Type} (Invoke : T → T → T)
    (ctx : KernelComputeContext T) (mem : Mem T) : Option (Mem T) :=
  let in_ptr := ctx.in_ptr
  let out_ptr := ctx.out_ptr
  let scalar_operand := ctx.scalar_operand
  let n := ctx.elem_cnt
  if out_ptr = in_ptr then
    forLoop n (fun i m => (m.load (out_ptr + i)).bind
      (fun x => m.store (out_ptr + i) (Invoke x scalar_operand))) n.toNat 0 mem
  else
    forLoop n (fun i m => (m.load (in_ptr + i)).bind
      (fun x => m.store (out_ptr + i) (Invoke x scalar_operand))) n.toNat 0 mem

/-- A memory whose cells `base, base+1, ...` hold the entries of `xs` and whose
other cells are unallocated. -/
def Mem.ofList {T : Type} (base : Nat) (xs : List T) : Mem T :=
  fun q => if base ≤ q then xs.get? (q - base) else none

/-- Modelled from the spec: the `user_op::TensorDesc` handed out by a
registration context (its declaration is not part of the sources at hand); the
match predicate reads only its declared data type tag. -/
structure TensorDesc (DataType : Type) where
  data_type : DataType

/-- Modelled from the spec: `user_op::KernelRegContext` (its declaration is not
part of the sources at hand): the requested device kind and the tensor
description of a named argument, a pointer that is null (`none`) when the
argument does not exist. -/
structure KernelRegContext (DeviceType DataType : Type) where
  device_type : DeviceType
  TensorDesc4ArgNameAndIndex : String → Int → Option (TensorDesc DataType)

/-- The lambda that `REGISTER_KERNEL(op_name, kernel_type, func_name,
kernel_device_type, dtype)` passes to `SetIsMatchedPred`; `dtype_value` stands
for `GetDataType<dtype>::value`. The right operand of `&&` is evaluated only
when the left one is true; dereferencing a null `y_desc` is a fault (`none`). -/
def REGISTER_KERNEL.IsMatchedPred {DeviceType DataType : Type}
    [DecidableEq DeviceType] [DecidableEq DataType]
    (kernel_device_type : DeviceType) (dtype_value : DataType)
    (ctx : KernelRegContext DeviceType DataType) : Option Bool :=
  let y_desc := ctx.TensorDesc4ArgNameAndIndex "out" 0
  if ctx.device_type = kernel_device_type then
    y_desc.bind (fun y => some (decide (y.data_type = dtype_value)))
  else
    some false

/-- Least value of the signed two's-complement integer type of `bits` bits
(`int32_t`, `int64_t`). -/
def intMin (bits : Nat) : Int := -((2 ^ (bits - 1) : Nat) : Int)

/-- Greatest value of the signed two's-complement integer type of `bits` bits. -/
def intMax (bits : Nat) : Int := ((2 ^ (bits - 1) : Nat) : Int) - 1

/-- The value a signed `bits`-bit integer holds after an arithmetic result `x`
is reduced modulo `2 ^ bits` (two's-complement wrap-around). -/
def wrapInt (bits : Nat) (x : Int) : Int :=
  (x + ((2 ^ (bits - 1) : Nat) : Int)) % ((2 ^ bits : Nat) : Int)
    - ((2 ^ (bits - 1) : Nat) : Int)

/-- Modelled from the spec: `BinaryFuncDiv<T>::Invoke` (declared outside the
sources at hand) in the idealised arithmetic that stands for the floating
element types: exact division of rationals. The rounding of `float` and `double`
is not represented; a zero divisor, for which the floating types give an
infinity or a NaN, has no value here (`none`). -/
def BinaryFuncDiv.InvokeRat (x y : ℚ) : Option ℚ :=
  if y = 0 then none else some (x / y)

/-- Modelled from the spec: `BinaryFuncDiv<T>::Invoke` (declared outside the
sources at hand) for the integer element types `int32_t` (`bits = 32`) and
`int64_t` (`bits = 64`), on operands within the range of the type: C++
division, truncating toward zero. Division by zero and the quotient
`INT_MIN / -1`, which the type cannot hold, end the program and give no value
(`none`). -/
def BinaryFuncDiv.InvokeInt (bits : Nat) (x y : Int) : Option Int :=
  if y = 0 then none
  else if x = intMin bits ∧ y = -1 then none
  else some (Int.tdiv x y)

/-- Modelled from the spec: every execution unit divides its own contribution by
its copy of the divisor `b`; there is a list of results only when the division
of every unit has one. -/
def divEach {α : Type} (div : α → α → Option α) (b : α) : List α → Option (List α)
  | [] => some []
  | a :: t => (div a b).bind (fun q => (divEach div b t).map (fun qs => q :: qs))

/-! ## broadcast_div_op.cpp -/

/-- Modelled from the spec: the distribution descriptor of one tensor argument
(`SbpParallel`, declared outside the sources at hand). -/
inductive SbpParallel where
  | Split (axis : Int)
  | Broadcast
  | PartialSum
  deriving DecidableEq

/-- Modelled from the spec: an operator signature (`SbpSignature`, declared
outside the sources at hand), a map from argument names to descriptors, kept as
an association list with at most one entry per name. -/
structure SbpSignature where
  bn_in_op2sbp_parallel : List (String × SbpParallel)
  deriving DecidableEq

/-- Modelled from the spec: the descriptor a signature gives to the argument
`bn`, if any. -/
def SbpSignature.find? (sig : SbpSignature) (bn : String) : Option SbpParallel :=
  sig.bn_in_op2sbp_parallel.lookup bn

/-- Modelled from the spec: map assignment `sig[bn] = v`; an earlier entry for
`bn` is replaced. -/
def SbpSignature.insert (sig : SbpSignature) (bn : String) (v : SbpParallel) : SbpSignature :=
  ⟨(bn, v) :: sig.bn_in_op2sbp_parallel.filter (fun e => e.1 != bn)⟩

/-- Modelled from the spec: the caller-owned list of alternative signatures
(`SbpSignatureList`, declared outside the sources at hand). -/
structure SbpSignatureList where
  sbp_signature : List SbpSignature
  deriving DecidableEq

/-- Modelled from the spec: the call `mutable_sbp_signature()->Add()`; a fresh empty signature is put at
the end of the list; the result carries the position of the new slot. -/
def SbpSignatureList.Add (l : SbpSignatureList) : SbpSignatureList × Nat :=
  (⟨l.sbp_signature ++ [⟨[]⟩]⟩, l.sbp_signature.length)

/-- Modelled from the spec: `SbpSignatureBuilder` (declared outside the sources
at hand), which assembles one signature argument by argument. -/
structure SbpSignatureBuilder where
  sbp_signature : SbpSignature

/-- Modelled from the spec: the default-constructed builder
`SbpSignatureBuilder()`, with no argument assigned yet. -/
def SbpSignatureBuilder.create : SbpSignatureBuilder := ⟨⟨[]⟩⟩

/-- Modelled from the spec: builder step `.Split(bn, axis)`. -/
def SbpSignatureBuilder.Split (b : SbpSignatureBuilder) (bn : String) (axis : Int) :
    SbpSignatureBuilder :=
  ⟨b.sbp_signature.insert bn (SbpParallel.Split axis)⟩

/-- Modelled from the spec: builder step `.Broadcast(bn)`. -/
def SbpSignatureBuilder.Broadcast (b : SbpSignatureBuilder) (bn : String) :
    SbpSignatureBuilder :=
  ⟨b.sbp_signature.insert bn SbpParallel.Broadcast⟩

/-- Modelled from the spec: builder step `.PartialSum(bn)`. -/
def SbpSignatureBuilder.PartialSum (b : SbpSignatureBuilder) (bn : String) :
    SbpSignatureBuilder :=
  ⟨b.sbp_signature.insert bn SbpParallel.PartialSum⟩

/-- Modelled from the spec: builder step `.Build(slot)`; the assembled signature is written into the
slot of the list that the pointer designates. -/
def SbpSignatureBuilder.Build (b : SbpSignatureBuilder) (l : SbpSignatureList) (slot : Nat) :
    SbpSignatureList :=
  ⟨l.sbp_signature.set slot b.sbp_signature⟩

/-- The result type `Maybe<T>`: a value or an error. -/
abbrev Maybe (Error α : Type) := Except Error α

/-- Method `BroadcastDivOp::VirtualGetSbpSignatures`. The pair holds the returned
`Maybe<void>` and the list `*sbp_sig_list` after the call. `BlobDescPtr` is the
`const BlobDesc*` a successful lookup yields. -/
def BroadcastDivOp.VirtualGetSbpSignatures {Error BlobDescPtr : Type}
    (LogicalBlobDesc4Ibn : String → Maybe Error BlobDescPtr)
    (sbp_sig_list : SbpSignatureList) : Maybe Error Unit × SbpSignatureList :=
  let added := sbp_sig_list.Add
  let sbp_sig_list := (((SbpSignatureBuilder.create.PartialSum "a").Broadcast "b").PartialSum
    "out").Build added.1 added.2
  (Except.ok (), sbp_sig_list)

/-- Modelled from the spec: the logical value of a tensor element held as
PartialSum is the sum of the contributions of the execution units; here in the
exact rational arithmetic that stands for the floating types. -/
def PartialSumValueRat (parts : List ℚ) : ℚ :=
  parts.foldl (fun acc a => acc + a) 0

/-- Modelled from the spec: the logical value of a tensor element held as
PartialSum is the sum of the contributions of the execution units; here
accumulated in a signed integer of `bits` bits, every addition wrapping
around. -/
def PartialSumValueInt (bits : Nat) (parts : List Int) : Int :=
  parts.foldl (fun acc a => wrapInt bits (acc + a)) 0

/-! ## runtime_blob_desc.h -/

/-- The way a call can end without a value. -/
inductive Failure where
  | todo
  deriving DecidableEq

/-- Modelled from the spec: the `TODO()` macro of `oneflow/core/common/util.h`
(not part of the sources at hand), a signalled not-implemented failure after
which control never continues. -/
def TODO {α : Type} : Except Failure α := Except.error Failure.todo

/-- Arithmetic in `size_t`, 64 bits wide. -/
def size_t (x : Nat) : Nat := x % 2 ^ 64

/-- Modelled from the spec: the serialized logical description
(`BlobDescProto`, declared outside the sources at hand): body shape and data
type, the two header flags and the maximum column count. -/
structure BlobDescProto (DataType : Type) where
  shape : List Nat
  data_type : DataType
  has_data_id_field : Bool
  has_col_num_field : Bool
  max_col_num : Int

/-- Modelled from the spec: the in-memory logical description (`BlobDesc`,
declared outside the sources at hand), with the same fields as its serialized
form. -/
structure BlobDesc (DataType : Type) where
  shape : List Nat
  data_type : DataType
  has_data_id_field : Bool
  has_col_num_field : Bool
  max_col_num : Int

/-- Modelled from the spec: `BlobDesc::ToProto`, field by field. -/
def BlobDesc.ToProto {DataType : Type} (b : BlobDesc DataType) : BlobDescProto DataType :=
  ⟨b.shape, b.data_type, b.has_data_id_field, b.has_col_num_field, b.max_col_num⟩

/-- Modelled from the spec: the body description (`FieldDesc`, declared outside
the sources at hand): shape and data type of the payload. -/
structure FieldDesc (DataType : Type) where
  shape : List Nat
  data_type : DataType

/-- The header sub-fields that have a layout. -/
inductive FieldKey where
  | kDataId
  | kColNum
  deriving DecidableEq

/-- Modelled from the spec: the structural pod description of the header
(`StructPodDesc`, declared outside the sources at hand): the present sub-fields
in canonical order, each with its byte size. -/
structure StructPodDesc where
  fields : List (FieldKey × Nat)

/-- Modelled from the spec: the byte widths the layout depends on, none of which
is fixed by the sources at hand: the size of one element of each data type, of
one data-id slot and of one column-count slot. -/
structure ByteWidths (DataType : Type) where
  GetSizeOfDataType : DataType → Nat
  SizeOfOneDataId : Nat
  SizeOfOneColNum : Nat

/-- The class `RtBlobDesc`: its three private members. -/
structure RtBlobDesc (DataType : Type) where
  blob_desc_proto_ : BlobDescProto DataType
  body_desc_ : FieldDesc DataType
  header_pod_desc_ : StructPodDesc

/-- Modelled from the spec: the instance count of a shape, its first dimension
(none for a shape without dimensions). -/
def instanceCount (shape : List Nat) : Nat :=
  match shape with
  | [] => 0
  | d :: _ => d

/-- Modelled from the spec: `RtBlobDesc::InitFromProto` (defined outside the
sources at hand): the header layout is built once by walking the flags, the
data-id field first if present, then the column-count field if present. -/
def RtBlobDesc.InitFromProto {DataType : Type} (w : ByteWidths DataType)
    (proto : BlobDescProto DataType) : RtBlobDesc DataType :=
  { blob_desc_proto_ := proto
    body_desc_ := ⟨proto.shape, proto.data_type⟩
    header_pod_desc_ :=
      ⟨(if proto.has_data_id_field then
          [(FieldKey.kDataId, size_t (w.SizeOfOneDataId * instanceCount proto.shape))]
        else []) ++
       (if proto.has_col_num_field then
          [(FieldKey.kColNum, size_t (w.SizeOfOneColNum * instanceCount proto.shape))]
        else [])⟩ }

/-- Modelled from the spec: the constructor `RtBlobDesc(const BlobDescProto&)`. -/
def RtBlobDesc.ofProto {DataType : Type} (w : ByteWidths DataType)
    (blob_desc_proto : BlobDescProto DataType) : RtBlobDesc DataType :=
  RtBlobDesc.InitFromProto w blob_desc_proto

/-- Modelled from the spec: the constructor `RtBlobDesc(const BlobDesc&)`. -/
def RtBlobDesc.ofBlobDesc {DataType : Type} (w : ByteWidths DataType)
    (blob_desc : BlobDesc DataType) : RtBlobDesc DataType :=
  RtBlobDesc.InitFromProto w blob_desc.ToProto

/-- Modelled from the spec: `RtBlobDesc::has_data_id_field` (defined outside the
sources at hand), the flag read from the input description. -/
def RtBlobDesc.has_data_id_field {DataType : Type} (d : RtBlobDesc DataType) : Bool :=
  d.blob_desc_proto_.has_data_id_field

/-- Modelled from the spec: `RtBlobDesc::has_col_num_field` (defined outside the
sources at hand), the flag read from the input description. -/
def RtBlobDesc.has_col_num_field {DataType : Type} (d : RtBlobDesc DataType) : Bool :=
  d.blob_desc_proto_.has_col_num_field

/-- Method `RtBlobDesc::has_instance_available_elen_cnt`. -/
def RtBlobDesc.has_instance_available_elen_cnt {DataType : Type}
    (_this : RtBlobDesc DataType) : Except Failure Bool := TODO

/-- Method `RtBlobDesc::has_available_instance_num`. -/
def RtBlobDesc.has_available_instance_num {DataType : Type}
    (_this : RtBlobDesc DataType) : Except Failure Bool := TODO

/-- Method `RtBlobDesc::max_col_num`. -/
def RtBlobDesc.max_col_num {DataType : Type} (d : RtBlobDesc DataType) : Int :=
  d.blob_desc_proto_.max_col_num

/-- Modelled from the spec: `RtBlobDesc::ByteSizeOfBlobHeader` (defined outside
the sources at hand): the sum of the byte sizes of the sub-fields of the header
layout. -/
def RtBlobDesc.ByteSizeOfBlobHeader {DataType : Type} (d : RtBlobDesc DataType) : Nat :=
  d.header_pod_desc_.fields.foldl (fun acc e => size_t (acc + e.2)) 0

/-- Modelled from the spec: `RtBlobDesc::ByteSizeOfBlobBody` (defined outside
the sources at hand): element size times element count, the product of the
dimensions. -/
def RtBlobDesc.ByteSizeOfBlobBody {DataType : Type} (w : ByteWidths DataType)
    (d : RtBlobDesc DataType) : Nat :=
  size_t (w.GetSizeOfDataType d.body_desc_.data_type * d.body_desc_.shape.prod)

/-- Modelled from the spec: `RtBlobDesc::TotalByteSize` (defined outside the
sources at hand): header size plus body size. -/
def RtBlobDesc.TotalByteSize {DataType : Type} (w : ByteWidths DataType)
    (d : RtBlobDesc DataType) : Nat :=
  size_t (d.ByteSizeOfBlobHeader + d.ByteSizeOfBlobBody w)

/-- Modelled from the spec: `RtBlobDesc::ByteSizeOfDataIdField` (defined outside
the sources at hand): 0 when the flag is false, else the width of one slot
times the instance count. -/
def RtBlobDesc.ByteSizeOfDataIdField {DataType : Type} (w : ByteWidths DataType)
    (d : RtBlobDesc DataType) : Nat :=
  if !d.has_data_id_field then 0
  else size_t (w.SizeOfOneDataId * instanceCount d.body_desc_.shape)

/-- Modelled from the spec: `RtBlobDesc::ByteSizeOfColNumField` (defined outside
the sources at hand): 0 when the flag is false, else the width of one slot
times the instance count. -/
def RtBlobDesc.ByteSizeOfColNumField {DataType : Type} (w : ByteWidths DataType)
    (d : RtBlobDesc DataType) : Nat :=
  if !d.has_col_num_field then 0
  else size_t (w.SizeOfOneColNum * instanceCount d.body_desc_.shape)

/-- Method `RtBlobDesc::ByteSizeOfInstanceAvailableElemCntField`. -/
def RtBlobDesc.ByteSizeOfInstanceAvailableElemCntField {DataType : Type}
    (_this : RtBlobDesc DataType) : Except Failure Nat := TODO

/-- Method `RtBlobDesc::ByteSizeOfAvailableInstanceNumField`. -/
def RtBlobDesc.ByteSizeOfAvailableInstanceNumField {DataType : Type}
    (_this : RtBlobDesc DataType) : Except Failure Nat := TODO


/-! ## Properties -/

/-- The loop shared by both kernels: cell `dst + i` receives `g` of cell
`src + i`, for `i` from `i0` up to `n`, provided no write lands on a cell that a
later iteration reads. -/
theorem forLoop_map_spec {T : Type} (g : T → T) (src dst : Nat) (n : Int) :
    ∀ (fuel i0 : Nat) (m : Mem T), n ≤ ((i0 + fuel : Nat) : Int) →
      (∀ j, i0 ≤ j → (j : Int) < n → (m (src + j)).isSome ∧ (m (dst + j)).isSome) →
      (∀ j j2, i0 ≤ j → j < j2 → (j2 : Int) < n → dst + j ≠ src + j2) →
      ∃ m2, forLoop n (fun i m => (m.load (src + i)).bind
              (fun x => m.store (dst + i) (g x))) fuel i0 m = some m2 ∧
        ∀ a, m2 a = if dst + i0 ≤ a ∧ ((a - dst : Nat) : Int) < n
                    then (m (src + (a - dst))).map g else m a := by
  intro fuel
  induction fuel with
  | zero =>
    intro i0 m hn _ _
    refine ⟨m, ?_, ?_⟩
    · have : ¬ ((i0 : Int) < n) := by simpa using hn
      simp [forLoop, this]
    · intro a
      have : ¬ (dst + i0 ≤ a ∧ ((a - dst : Nat) : Int) < n) := by
        rintro ⟨h1, h2⟩
        have : (i0 : Int) ≤ ((a - dst : Nat) : Int) := by
          have : i0 ≤ a - dst := by omega
          exact_mod_cast this
        simp at hn
        omega
      simp [this]
  | succ fuel ih =>
    intro i0 m hn halloc hsep
    by_cases hlt : (i0 : Int) < n
    · obtain ⟨hs, hd⟩ := halloc i0 (le_refl _) hlt
      obtain ⟨v, hv⟩ := Option.isSome_iff_exists.mp hs
      have hstore : m.store (dst + i0) (g v)
          = some (fun q => if q = dst + i0 then some (g v) else m q) := by
        simp [Mem.store, hd]
      have hn2 : n ≤ ((i0 + 1 + fuel : Nat) : Int) := by
        have : i0 + 1 + fuel = i0 + (fuel + 1) := by omega
        rw [this]; exact hn
      obtain ⟨m2, hrun, hpost⟩ := ih (i0 + 1)
        (fun q => if q = dst + i0 then some (g v) else m q) hn2
        (by
          intro j hj hjn
          obtain ⟨h1, h2⟩ := halloc j (by omega) hjn
          constructor
          · by_cases h : src + j = dst + i0 <;> simp [h, h1]
          · by_cases h : dst + j = dst + i0 <;> simp [h, h2])
        (by
          intro j j2 hj hjj hj2
          exact hsep j j2 (by omega) hjj hj2)
      refine ⟨m2, ?_, ?_⟩
      · simp only [forLoop, hlt, if_true, Mem.load, hv, Option.some_bind, hstore]
        exact hrun
      · intro a
        rw [hpost a]
        by_cases ha : dst + (i0 + 1) ≤ a ∧ ((a - dst : Nat) : Int) < n
        · have ha2 : dst + i0 ≤ a ∧ ((a - dst : Nat) : Int) < n := ⟨by omega, ha.2⟩
          have hne : src + (a - dst) ≠ dst + i0 := by
            intro h
            exact hsep i0 (a - dst) (le_refl _) (by omega) ha.2 h.symm
          simp [ha, ha2, hne]
        · by_cases hEq : a = dst + i0
          · subst hEq
            have h1 : ¬ (dst + (i0 + 1) ≤ dst + i0 ∧ ((dst + i0 - dst : Nat) : Int) < n) := by
              rintro ⟨h, _⟩; omega
            have h2 : dst + i0 ≤ dst + i0 ∧ ((dst + i0 - dst : Nat) : Int) < n := by
              refine ⟨le_refl _, ?_⟩
              simpa using hlt
            simp [hlt, hv]
          · have h2 : ¬ (dst + i0 ≤ a ∧ ((a - dst : Nat) : Int) < n) := by
              rintro ⟨h, h3⟩
              exact ha ⟨by omega, h3⟩
            simp [ha, h2, hEq]
    · refine ⟨m, ?_, ?_⟩
      · simp [forLoop, hlt]
      · intro a
        have : ¬ (dst + i0 ≤ a ∧ ((a - dst : Nat) : Int) < n) := by
          rintro ⟨h1, h2⟩
          have : (i0 : Int) ≤ ((a - dst : Nat) : Int) := by
            have : i0 ≤ a - dst := by omega
            exact_mod_cast this
          omega
        simp [this]

/-- Both branches of `Compute` at once: when the pointers are equal, or when no
write lands on a cell read later, the call returns and cell `out + i` holds `g`
of the original cell `inp + i` for every `i` below `n`; other cells keep their
value. -/
theorem kernel_core {T : Type} (g : T → T) (inp out : Nat) (n : Int) (mem : Mem T)
    (halloc : ∀ j : Nat, (j : Int) < n → (mem (inp + j)).isSome ∧ (mem (out + j)).isSome)
    (hsep : out = inp ∨ ∀ j j2 : Nat, j < j2 → (j2 : Int) < n → out + j ≠ inp + j2) :
    ∃ m2, (if out = inp then
            forLoop n (fun i m => (m.load (out + i)).bind
              (fun x => m.store (out + i) (g x))) n.toNat 0 mem
          else
            forLoop n (fun i m => (m.load (inp + i)).bind
              (fun x => m.store (out + i) (g x))) n.toNat 0 mem) = some m2 ∧
      ∀ a, m2 a = if out ≤ a ∧ ((a - out : Nat) : Int) < n
                  then (mem (inp + (a - out))).map g else mem a := by
  have hfuel : n ≤ ((0 + n.toNat : Nat) : Int) := by
    rw [Nat.zero_add]; exact Int.self_le_toNat n
  by_cases h : out = inp
  · subst h
    rw [if_pos rfl]
    obtain ⟨m2, hrun, hpost⟩ := forLoop_map_spec g out out n n.toNat 0 mem hfuel
      (fun j _ hj => halloc j hj) (fun j j2 _ hjj _ => by omega)
    exact ⟨m2, hrun, fun a => by simpa using hpost a⟩
  · rw [if_neg h]
    have hsep2 : ∀ j j2 : Nat, j < j2 → (j2 : Int) < n → out + j ≠ inp + j2 := by
      rcases hsep with h2 | h2
      · exact absurd h2 h
      · exact h2
    obtain ⟨m2, hrun, hpost⟩ := forLoop_map_spec g inp out n n.toNat 0 mem hfuel
      (fun j _ hj => halloc j hj) (fun j j2 _ hjj hj2 => hsep2 j j2 hjj hj2)
    exact ⟨m2, hrun, fun a => by simpa using hpost a⟩

/-- The kernel run on an input buffer of `in_len` cells and an output buffer of
`out_len` cells that do not overlap, each at least `n` long. -/
theorem kernel_disjoint {T : Type} (g : T → T) (inp out : Nat) (n : Int) (mem : Mem T)
    (in_len out_len : Nat)
    (hin_len : n ≤ (in_len : Int)) (hout_len : n ≤ (out_len : Int))
    (hin : ∀ j, j < in_len → (mem (inp + j)).isSome)
    (hout : ∀ j, j < out_len → (mem (out + j)).isSome)
    (hdisj : inp + in_len ≤ out ∨ out + out_len ≤ inp) :
    ∃ m2, (if out = inp then
            forLoop n (fun i m => (m.load (out + i)).bind
              (fun x => m.store (out + i) (g x))) n.toNat 0 mem
          else
            forLoop n (fun i m => (m.load (inp + i)).bind
              (fun x => m.store (out + i) (g x))) n.toNat 0 mem) = some m2 ∧
      (∀ i : Nat, (i : Int) < n → m2 (out + i) = (mem (inp + i)).map g) ∧
      (∀ j : Nat, n ≤ (j : Int) → m2 (out + j) = mem (out + j)) ∧
      (∀ j, j < in_len → m2 (inp + j) = mem (inp + j)) ∧
      (∀ a, (∀ i : Nat, (i : Int) < n → a ≠ out + i) → m2 a = mem a) := by
  obtain ⟨m2, hrun, hpost⟩ := kernel_core g inp out n mem
    (fun j hj => ⟨hin j (by omega), hout j (by omega)⟩)
    (Or.inr (fun j j2 hjj hj2 => by omega))
  refine ⟨m2, hrun, ?_, ?_, ?_, ?_⟩
  · intro i hi
    rw [hpost]
    have : out ≤ out + i ∧ ((out + i - out : Nat) : Int) < n :=
      ⟨by omega, by simpa using hi⟩
    simp [hi]
  · intro j hj
    rw [hpost]
    have : ¬ (out ≤ out + j ∧ ((out + j - out : Nat) : Int) < n) := by
      rintro ⟨_, h⟩
      simp at h
      omega
    rw [if_neg this]
  · intro j hj
    rw [hpost]
    have : ¬ (out ≤ inp + j ∧ ((inp + j - out : Nat) : Int) < n) := by
      rintro ⟨h1, h2⟩
      omega
    rw [if_neg this]
  · intro a ha
    rw [hpost]
    have : ¬ (out ≤ a ∧ ((a - out : Nat) : Int) < n) := by
      rintro ⟨h1, h2⟩
      exact ha (a - out) h2 (by omega)
    rw [if_neg this]

/-- C2: `RightBinaryKernel<f, CPU, T>::Compute` on an input buffer and a
non-overlapping output buffer, both allocated and at least `n` cells long,
returns and leaves `out[i] = f(in[i], s)` for every `i` in `[0, n)`; every
`out[j]` with `j >= n` and the whole input buffer are unchanged (indeed every
cell outside `out[0..n)` is), and with `n = 0` the output buffer is unchanged. -/
theorem RightBinaryKernel_Compute_spec {T : Type} (f : T → T → T)
    (ctx : KernelComputeContext T) (mem : Mem T) (in_len out_len : Nat)
    (hin_len : ctx.elem_cnt ≤ (in_len : Int)) (hout_len : ctx.elem_cnt ≤ (out_len : Int))
    (hin : ∀ j, j < in_len → (mem (ctx.in_ptr + j)).isSome)
    (hout : ∀ j, j < out_len → (mem (ctx.out_ptr + j)).isSome)
    (hdisj : ctx.in_ptr + in_len ≤ ctx.out_ptr ∨ ctx.out_ptr + out_len ≤ ctx.in_ptr) :
    ∃ mem2, RightBinaryKernel.Compute f ctx mem = some mem2 ∧
      (∀ i : Nat, (i : Int) < ctx.elem_cnt →
        mem2 (ctx.out_ptr + i)
          = (mem (ctx.in_ptr + i)).map (fun x => f x ctx.scalar_operand)) ∧
      (∀ j : Nat, ctx.elem_cnt ≤ (j : Int) →
        mem2 (ctx.out_ptr + j) = mem (ctx.out_ptr + j)) ∧
      (∀ j, j < in_len → mem2 (ctx.in_ptr + j) = mem (ctx.in_ptr + j)) ∧
      (∀ a, (∀ i : Nat, (i : Int) < ctx.elem_cnt → a ≠ ctx.out_ptr + i) → mem2 a = mem a) ∧
      (ctx.elem_cnt = 0 → ∀ j, mem2 (ctx.out_ptr + j) = mem (ctx.out_ptr + j)) := by
  obtain ⟨m2, hrun, h1, h2, h3, h4⟩ :=
    kernel_disjoint (fun x => f x ctx.scalar_operand) ctx.in_ptr ctx.out_ptr ctx.elem_cnt
      mem in_len out_len hin_len hout_len hin hout hdisj
  exact ⟨m2, hrun, h1, h2, h3, h4, fun h0 j => h2 j (by rw [h0]; exact Int.ofNat_nonneg j)⟩

/-- C3: `LeftBinaryKernel<f, CPU, T>::Compute` on an input buffer and a
non-overlapping output buffer, both allocated and at least `n` cells long,
returns and leaves `out[i] = f(s, in[i])` for every `i` in `[0, n)`; every
`out[j]` with `j >= n` and the whole input buffer are unchanged (indeed every
cell outside `out[0..n)` is). -/
theorem LeftBinaryKernel_Compute_spec {T : Type} (f : T → T → T)
    (ctx : KernelComputeContext T) (mem : Mem T) (in_len out_len : Nat)
    (hin_len : ctx.elem_cnt ≤ (in_len : Int)) (hout_len : ctx.elem_cnt ≤ (out_len : Int))
    (hin : ∀ j, j < in_len → (mem (ctx.in_ptr + j)).isSome)
    (hout : ∀ j, j < out_len → (mem (ctx.out_ptr + j)).isSome)
    (hdisj : ctx.in_ptr + in_len ≤ ctx.out_ptr ∨ ctx.out_ptr + out_len ≤ ctx.in_ptr) :
    ∃ mem2, LeftBinaryKernel.Compute f ctx mem = some mem2 ∧
      (∀ i : Nat, (i : Int) < ctx.elem_cnt →
        mem2 (ctx.out_ptr + i)
          = (mem (ctx.in_ptr + i)).map (fun x => f ctx.scalar_operand x)) ∧
      (∀ j : Nat, ctx.elem_cnt ≤ (j : Int) →
        mem2 (ctx.out_ptr + j) = mem (ctx.out_ptr + j)) ∧
      (∀ j, j < in_len → mem2 (ctx.in_ptr + j) = mem (ctx.in_ptr + j)) ∧
      (∀ a, (∀ i : Nat, (i : Int) < ctx.elem_cnt → a ≠ ctx.out_ptr + i) → mem2 a = mem a) := by
  obtain ⟨m2, hrun, h1, h2, h3, h4⟩ :=
    kernel_disjoint (fun x => f ctx.scalar_operand x) ctx.in_ptr ctx.out_ptr ctx.elem_cnt
      mem in_len out_len hin_len hout_len hin hout hdisj
  exact ⟨m2, hrun, h1, h2, h3, h4⟩

/-- Witness for C2: truncating division of the buffer `[7, -7, 20]` at cells
`0..2` by the scalar `2`, into the buffer at cells `3..5`. -/
theorem RightBinaryKernel_Compute_spec_witness :
    ∃ mem2, RightBinaryKernel.Compute Int.tdiv ⟨0, 3, 2, 3⟩
        (Mem.ofList 0 [7, -7, 20, 100, 101, 102]) = some mem2 ∧
      mem2 3 = some 3 ∧ mem2 4 = some (-3) ∧ mem2 5 = some 10 ∧
      mem2 0 = some 7 ∧ mem2 1 = some (-7) ∧ mem2 2 = some 20 := by
  obtain ⟨m2, hrun, h1, _, h3, _, _⟩ :=
    RightBinaryKernel_Compute_spec Int.tdiv ⟨0, 3, 2, 3⟩
      (Mem.ofList 0 [7, -7, 20, 100, 101, 102]) 3 3
      (by decide) (by decide) (by decide) (by decide) (by decide)
  refine ⟨m2, hrun, ?_, ?_, ?_, ?_, ?_, ?_⟩
  · rw [h1 0 (by decide)]; decide
  · rw [h1 1 (by decide)]; decide
  · rw [h1 2 (by decide)]; decide
  · rw [h3 0 (by decide)]; decide
  · rw [h3 1 (by decide)]; decide
  · rw [h3 2 (by decide)]; decide

/-- Witness for C3: the scalar `20` divided, truncating, by each entry of the
buffer `[7, -7, 3]` at cells `0..2`, into the buffer at cells `3..5`. -/
theorem LeftBinaryKernel_Compute_spec_witness :
    ∃ mem2, LeftBinaryKernel.Compute Int.tdiv ⟨0, 3, 20, 3⟩
        (Mem.ofList 0 [7, -7, 3, 100, 101, 102]) = some mem2 ∧
      mem2 3 = some 2 ∧ mem2 4 = some (-2) ∧ mem2 5 = some 6 ∧
      mem2 0 = some 7 ∧ mem2 1 = some (-7) ∧ mem2 2 = some 3 := by
  obtain ⟨m2, hrun, h1, _, h3, _⟩ :=
    LeftBinaryKernel_Compute_spec Int.tdiv ⟨0, 3, 20, 3⟩
      (Mem.ofList 0 [7, -7, 3, 100, 101, 102]) 3 3
      (by decide) (by decide) (by decide) (by decide) (by decide)
  refine ⟨m2, hrun, ?_, ?_, ?_, ?_, ?_, ?_⟩
  · rw [h1 0 (by decide)]; decide
  · rw [h1 1 (by decide)]; decide
  · rw [h1 2 (by decide)]; decide
  · rw [h3 0 (by decide)]; decide
  · rw [h3 1 (by decide)]; decide
  · rw [h3 2 (by decide)]; decide

/-- One kernel run in place against the same kernel run on a copy of the input
with a separate output buffer. -/
theorem kernel_inplace_eq {T : Type} (g : T → T) (n : Int)
    (p : Nat) (mem : Mem T) (q r : Nat) (memc : Mem T) (in_len out_len : Nat)
    (hb : ∀ j : Nat, (j : Int) < n → (mem (p + j)).isSome)
    (hin_len : n ≤ (in_len : Int)) (hout_len : n ≤ (out_len : Int))
    (hin : ∀ j, j < in_len → (memc (q + j)).isSome)
    (hout : ∀ j, j < out_len → (memc (r + j)).isSome)
    (hdisj : q + in_len ≤ r ∨ r + out_len ≤ q)
    (hcopy : ∀ j : Nat, (j : Int) < n → memc (q + j) = mem (p + j)) :
    ∃ a b,
      (if p = p then
          forLoop n (fun i m => (m.load (p + i)).bind
            (fun x => m.store (p + i) (g x))) n.toNat 0 mem
        else
          forLoop n (fun i m => (m.load (p + i)).bind
            (fun x => m.store (p + i) (g x))) n.toNat 0 mem) = some a ∧
      (if r = q then
          forLoop n (fun i m => (m.load (r + i)).bind
            (fun x => m.store (r + i) (g x))) n.toNat 0 memc
        else
          forLoop n (fun i m => (m.load (q + i)).bind
            (fun x => m.store (r + i) (g x))) n.toNat 0 memc) = some b ∧
      ∀ i : Nat, (i : Int) < n →
        a (p + i) = b (r + i) ∧ a (p + i) = (mem (p + i)).map g := by
  obtain ⟨a, hrunA, hpostA⟩ := kernel_core g p p n mem
    (fun j hj => ⟨hb j hj, hb j hj⟩) (Or.inl rfl)
  obtain ⟨b, hrunB, hB, _⟩ := kernel_disjoint g q r n memc in_len out_len
    hin_len hout_len hin hout hdisj
  refine ⟨a, b, hrunA, hrunB, ?_⟩
  intro i hi
  have hA : a (p + i) = (mem (p + i)).map g := by
    rw [hpostA]
    simp [hi]
  exact ⟨by rw [hA, hB i hi, hcopy i hi], hA⟩

/-- C4: in-place execution equals out-of-place execution. For the Right and the
Left CPU kernel alike, running `Compute` with the output pointer equal to the
input pointer `p` on a buffer whose first `n` cells are allocated returns, and
so does running it on a separate, non-overlapping output buffer at `r` with the
input at `q` holding a copy of the original buffer; at every index `i` in
`[0, n)` the two results agree, both being `f` applied to the original `b[i]`
and the scalar in the kernel's operand order. -/
theorem Compute_inplace_eq_outofplace {T : Type} (f : T → T → T) (s : T) (n : Int)
    (p : Nat) (mem : Mem T) (q r : Nat) (memc : Mem T) (in_len out_len : Nat)
    (hb : ∀ j : Nat, (j : Int) < n → (mem (p + j)).isSome)
    (hin_len : n ≤ (in_len : Int)) (hout_len : n ≤ (out_len : Int))
    (hin : ∀ j, j < in_len → (memc (q + j)).isSome)
    (hout : ∀ j, j < out_len → (memc (r + j)).isSome)
    (hdisj : q + in_len ≤ r ∨ r + out_len ≤ q)
    (hcopy : ∀ j : Nat, (j : Int) < n → memc (q + j) = mem (p + j)) :
    (∃ a b, RightBinaryKernel.Compute f ⟨p, p, s, n⟩ mem = some a ∧
        RightBinaryKernel.Compute f ⟨q, r, s, n⟩ memc = some b ∧
        ∀ i : Nat, (i : Int) < n →
          a (p + i) = b (r + i) ∧ a (p + i) = (mem (p + i)).map (fun x => f x s)) ∧
    (∃ a b, LeftBinaryKernel.Compute f ⟨p, p, s, n⟩ mem = some a ∧
        LeftBinaryKernel.Compute f ⟨q, r, s, n⟩ memc = some b ∧
        ∀ i : Nat, (i : Int) < n →
          a (p + i) = b (r + i) ∧ a (p + i) = (mem (p + i)).map (fun x => f s x)) :=
  ⟨kernel_inplace_eq (fun x => f x s) n p mem q r memc in_len out_len
      hb hin_len hout_len hin hout hdisj hcopy,
   kernel_inplace_eq (fun x => f s x) n p mem q r memc in_len out_len
      hb hin_len hout_len hin hout hdisj hcopy⟩

/-- Witness for C4: Right-variant truncating integer division of `[1, 2, 3]` by
the scalar `10`, in place, gives `[0, 0, 0]`, as does the run on a copy of the
input at cells `0..2` with the output at cells `3..5`. -/
theorem Compute_inplace_eq_outofplace_witness :
    ∃ a b, RightBinaryKernel.Compute Int.tdiv ⟨0, 0, 10, 3⟩ (Mem.ofList 0 [1, 2, 3]) = some a ∧
      RightBinaryKernel.Compute Int.tdiv ⟨0, 3, 10, 3⟩
        (Mem.ofList 0 [1, 2, 3, 55, 66, 77]) = some b ∧
      (a 0 = some 0 ∧ a 1 = some 0 ∧ a 2 = some 0) ∧
      (b 3 = some 0 ∧ b 4 = some 0 ∧ b 5 = some 0) := by
  obtain ⟨⟨a, b, ha, hb, hab⟩, _⟩ :=
    Compute_inplace_eq_outofplace Int.tdiv 10 3 0 (Mem.ofList 0 [1, 2, 3]) 0 3
      (Mem.ofList 0 [1, 2, 3, 55, 66, 77]) 3 3
      (by intro j hj; have hj3 : j < 3 := by omega
          interval_cases j <;> decide)
      (by decide) (by decide) (by decide) (by decide) (by decide)
      (by intro j hj; have hj3 : j < 3 := by omega
          interval_cases j <;> decide)
  have h0 := hab 0 (by decide)
  have h1 := hab 1 (by decide)
  have h2 := hab 2 (by decide)
  have e0 : a 0 = some 0 := h0.2.trans (by decide)
  have e1 : a 1 = some 0 := h1.2.trans (by decide)
  have e2 : a 2 = some 0 := h2.2.trans (by decide)
  exact ⟨a, b, ha, hb, ⟨e0, e1, e2⟩, h0.1.symm.trans e0, h1.1.symm.trans e1,
    h2.1.symm.trans e2⟩

/-- Overwriting the last slot of a list that was extended by one entry. -/
theorem list_set_length_append {α : Type} (l : List α) (x y : α) :
    (l ++ [x]).set l.length y = l ++ [y] := by
  induction l with
  | nil => rfl
  | cons h t ih => simp [List.set, ih]

/-- The list after `VirtualGetSbpSignatures` is the list before it followed by
the one signature `{out: PartialSum, b: Broadcast, a: PartialSum}`. -/
theorem VirtualGetSbpSignatures_list {Error BlobDescPtr : Type}
    (lookup : String → Maybe Error BlobDescPtr) (L : SbpSignatureList) :
    (BroadcastDivOp.VirtualGetSbpSignatures lookup L).2.sbp_signature
      = L.sbp_signature ++
          [⟨[("out", SbpParallel.PartialSum), ("b", SbpParallel.Broadcast),
             ("a", SbpParallel.PartialSum)]⟩] := by
  simp only [BroadcastDivOp.VirtualGetSbpSignatures, SbpSignatureList.Add,
    SbpSignatureBuilder.Build, list_set_length_append]
  rfl

/-- The signature built by `BroadcastDivOp` names no argument besides `a`, `b`
and `out`. -/
theorem built_signature_names (bn : String) :
    (⟨[("out", SbpParallel.PartialSum), ("b", SbpParallel.Broadcast),
       ("a", SbpParallel.PartialSum)]⟩ : SbpSignature).find? bn ≠ none →
      bn = "a" ∨ bn = "b" ∨ bn = "out" := by
  simp only [SbpSignature.find?, List.lookup]
  intro h
  by_cases h1 : bn = "out"
  · simp [h1]
  · by_cases h2 : bn = "b"
    · simp [h2]
    · by_cases h3 : bn = "a"
      · simp [h3]
      · exfalso
        apply h
        have e1 : (bn == "out") = false := by simpa using h1
        have e2 : (bn == "b") = false := by simpa using h2
        have e3 : (bn == "a") = false := by simpa using h3
        simp [e1, e2, e3]

/-- C1: for every lookup function and every initial signature list,
`BroadcastDivOp::VirtualGetSbpSignatures` adds exactly one new signature; it
maps `a` to PartialSum, `b` to Broadcast and `out` to PartialSum and mentions no
other argument. Starting from an empty list, no signature in the result marks
`b` as PartialSum. -/
theorem VirtualGetSbpSignatures_adds_one {Error BlobDescPtr : Type}
    (lookup : String → Maybe Error BlobDescPtr) (L : SbpSignatureList) :
    ∃ sig : SbpSignature,
      (BroadcastDivOp.VirtualGetSbpSignatures lookup L).2.sbp_signature
        = L.sbp_signature ++ [sig] ∧
      sig.find? "a" = some SbpParallel.PartialSum ∧
      sig.find? "b" = some SbpParallel.Broadcast ∧
      sig.find? "out" = some SbpParallel.PartialSum ∧
      (∀ bn, sig.find? bn ≠ none → bn = "a" ∨ bn = "b" ∨ bn = "out") ∧
      (∀ s ∈ (BroadcastDivOp.VirtualGetSbpSignatures lookup ⟨[]⟩).2.sbp_signature,
        s.find? "b" ≠ some SbpParallel.PartialSum) := by
  refine ⟨_, VirtualGetSbpSignatures_list lookup L, by decide, by decide, by decide,
    built_signature_names, ?_⟩
  intro s hs
  rw [VirtualGetSbpSignatures_list] at hs
  simp only [List.nil_append, List.mem_singleton] at hs
  subst hs
  decide

/-- Counterexample for C5: a lookup function that fails for every argument
name, `a` and `b` included, still gets `Ok` back, on the empty list. -/
theorem VirtualGetSbpSignatures_ignores_lookup_failure :
    (fun _ => Except.error "no blob desc" : String → Maybe String Nat) "a"
        = Except.error "no blob desc" ∧
    (fun _ => Except.error "no blob desc" : String → Maybe String Nat) "b"
        = Except.error "no blob desc" ∧
    (BroadcastDivOp.VirtualGetSbpSignatures
        (fun _ => Except.error "no blob desc" : String → Maybe String Nat) ⟨[]⟩).1
        = Except.ok () ∧
    ∀ e, (BroadcastDivOp.VirtualGetSbpSignatures
        (fun _ => Except.error "no blob desc" : String → Maybe String Nat) ⟨[]⟩).1
        ≠ Except.error e := by
  refine ⟨rfl, rfl, rfl, ?_⟩
  intro e h
  cases h

/-- C5, amended: `BroadcastDivOp::VirtualGetSbpSignatures` never consults the
lookup function: it returns `Ok` for every lookup function, one that fails for
`a` or `b` included, and the list it leaves is the same whatever the lookup
function does. -/
theorem VirtualGetSbpSignatures_always_ok {Error BlobDescPtr : Type}
    (lookup : String → Maybe Error BlobDescPtr) (L : SbpSignatureList) :
    (BroadcastDivOp.VirtualGetSbpSignatures lookup L).1 = Except.ok () ∧
    ∀ lookup2 : String → Maybe Error BlobDescPtr,
      (BroadcastDivOp.VirtualGetSbpSignatures lookup2 L).2
        = (BroadcastDivOp.VirtualGetSbpSignatures lookup L).2 :=
  ⟨rfl, fun _ => rfl⟩

/-- C6: for every initial signature list `L` of length `k`, after
`BroadcastDivOp::VirtualGetSbpSignatures` the list has length `k + 1` and its
first `k` entries are the entries of `L` in their original order; calling it a
second time on the result leaves `L` followed by two copies of the
signature. -/
theorem VirtualGetSbpSignatures_appends {Error BlobDescPtr : Type}
    (lookup : String → Maybe Error BlobDescPtr) (L : SbpSignatureList) :
    (BroadcastDivOp.VirtualGetSbpSignatures lookup L).2.sbp_signature.length
        = L.sbp_signature.length + 1 ∧
    (BroadcastDivOp.VirtualGetSbpSignatures lookup L).2.sbp_signature.take
        L.sbp_signature.length = L.sbp_signature ∧
    (∀ i, i < L.sbp_signature.length →
      (BroadcastDivOp.VirtualGetSbpSignatures lookup L).2.sbp_signature.get? i
        = L.sbp_signature.get? i) ∧
    ∃ sig, (BroadcastDivOp.VirtualGetSbpSignatures lookup
        (BroadcastDivOp.VirtualGetSbpSignatures lookup L).2).2.sbp_signature
        = L.sbp_signature ++ [sig, sig] := by
  refine ⟨?_, ?_, ?_, ?_⟩
  · rw [VirtualGetSbpSignatures_list]; simp
  · rw [VirtualGetSbpSignatures_list]; simp
  · intro i hi
    rw [VirtualGetSbpSignatures_list]
    simp [List.getElem?_append_left hi]
  · refine ⟨⟨[("out", SbpParallel.PartialSum), ("b", SbpParallel.Broadcast),
      ("a", SbpParallel.PartialSum)]⟩, ?_⟩
    rw [VirtualGetSbpSignatures_list, VirtualGetSbpSignatures_list, List.append_assoc]
    rfl

/-- C7: the match predicate of a `REGISTER_KERNEL` registration with device
kind `D` and data type tag `t` returns true exactly when the context's device
kind is `D` and the output tensor (`out`, index 0) is declared with data type
`t`. Its result is fixed by the device kind and the description of `out` alone,
whatever the context says about any other tensor; an output tensor declared
with a tag other than `t` is never matched, and two registrations with distinct
tags never both match one context. -/
theorem IsMatchedPred_spec {DeviceType DataType : Type}
    [DecidableEq DeviceType] [DecidableEq DataType]
    (D : DeviceType) (t : DataType) (ctx : KernelRegContext DeviceType DataType) :
    (REGISTER_KERNEL.IsMatchedPred D t ctx = some true ↔
      ctx.device_type = D ∧
        ∃ y, ctx.TensorDesc4ArgNameAndIndex "out" 0 = some y ∧ y.data_type = t) ∧
    (∀ y, ctx.TensorDesc4ArgNameAndIndex "out" 0 = some y →
      REGISTER_KERNEL.IsMatchedPred D t ctx
        = some (decide (ctx.device_type = D ∧ y.data_type = t))) ∧
    (∀ ctx2 : KernelRegContext DeviceType DataType,
      ctx2.device_type = ctx.device_type →
      ctx2.TensorDesc4ArgNameAndIndex "out" 0 = ctx.TensorDesc4ArgNameAndIndex "out" 0 →
      REGISTER_KERNEL.IsMatchedPred D t ctx2 = REGISTER_KERNEL.IsMatchedPred D t ctx) ∧
    (∀ y, ctx.TensorDesc4ArgNameAndIndex "out" 0 = some y → y.data_type ≠ t →
      REGISTER_KERNEL.IsMatchedPred D t ctx = some false) ∧
    (∀ t2, t2 ≠ t →
      ¬ (REGISTER_KERNEL.IsMatchedPred D t ctx = some true ∧
         REGISTER_KERNEL.IsMatchedPred D t2 ctx = some true)) := by
  have key : ∀ (u : DataType) (c : KernelRegContext DeviceType DataType),
      REGISTER_KERNEL.IsMatchedPred D u c = some true ↔
        c.device_type = D ∧
          ∃ y, c.TensorDesc4ArgNameAndIndex "out" 0 = some y ∧ y.data_type = u := by
    intro u c
    unfold REGISTER_KERNEL.IsMatchedPred
    by_cases hd : c.device_type = D
    · cases hy : c.TensorDesc4ArgNameAndIndex "out" 0 with
      | none => simp [hd]
      | some y => simp [hd]
    · simp [hd]
  refine ⟨key t ctx, ?_, ?_, ?_, ?_⟩
  · intro y hy
    unfold REGISTER_KERNEL.IsMatchedPred
    by_cases hd : ctx.device_type = D
    · simp [hd, hy]
    · simp [hd]
  · intro ctx2 hdev hout
    unfold REGISTER_KERNEL.IsMatchedPred
    rw [hdev, hout]
  · intro y hy hne
    unfold REGISTER_KERNEL.IsMatchedPred
    by_cases hd : ctx.device_type = D
    · simp [hd, hy, hne]
    · simp [hd]
  · rintro t2 hne ⟨h1, h2⟩
    obtain ⟨_, y, hy, hyt⟩ := (key t ctx).mp h1
    obtain ⟨_, y2, hy2, hyt2⟩ := (key t2 ctx).mp h2
    rw [hy] at hy2
    cases hy2
    exact hne (hyt2.symm.trans hyt)

/-- Witness for C7: with device kinds and data type tags numbered, the
registration for device `1` and tag `5` matches a context on device `1` whose
`out` is declared with tag `5` while its input `in` has tag `6`; it matches
neither the same context with `out` declared `6` nor one on device `2`. -/
theorem IsMatchedPred_spec_witness :
    REGISTER_KERNEL.IsMatchedPred (1 : Nat) (5 : Nat)
        ⟨1, fun name _ => if name = "out" then some ⟨5⟩ else some ⟨6⟩⟩ = some true ∧
    REGISTER_KERNEL.IsMatchedPred (1 : Nat) (5 : Nat)
        ⟨1, fun name _ => if name = "out" then some ⟨6⟩ else some ⟨5⟩⟩ = some false ∧
    REGISTER_KERNEL.IsMatchedPred (1 : Nat) (5 : Nat)
        ⟨2, fun name _ => if name = "out" then some ⟨5⟩ else some ⟨5⟩⟩ = some false := by
  refine ⟨?_, ?_, ?_⟩
  · exact ((IsMatchedPred_spec (1 : Nat) (5 : Nat)
      ⟨1, fun name _ => if name = "out" then some ⟨5⟩ else some ⟨6⟩⟩).1).mpr
        ⟨rfl, ⟨5⟩, rfl, rfl⟩
  · exact ((IsMatchedPred_spec (1 : Nat) (5 : Nat)
      ⟨1, fun name _ => if name = "out" then some ⟨6⟩ else some ⟨5⟩⟩).2.1 ⟨6⟩
        rfl).trans (by decide)
  · exact ((IsMatchedPred_spec (1 : Nat) (5 : Nat)
      ⟨2, fun name _ => if name = "out" then some ⟨5⟩ else some ⟨5⟩⟩).2.1 ⟨5⟩
        rfl).trans (by decide)

/-- When every unit's division has the value `g a`, the list of results is the
list of these values. -/
theorem divEach_eq_map {α : Type} (div : α → α → Option α) (b : α) (g : α → α) :
    ∀ parts : List α, (∀ a ∈ parts, div a b = some (g a)) →
      divEach div b parts = some (parts.map g) := by
  intro parts
  induction parts with
  | nil => intro _; rfl
  | cons a t ih =>
    intro h
    simp [divEach, h a (List.mem_cons_self _ _),
      ih (fun x hx => h x (List.mem_cons_of_mem _ hx))]

/-- The rational PartialSum value is the sum of the list. -/
theorem PartialSumValueRat_eq (parts : List ℚ) : PartialSumValueRat parts = parts.sum := by
  unfold PartialSumValueRat
  have : ∀ (l : List ℚ) (acc : ℚ), l.foldl (fun acc a => acc + a) acc = acc + l.sum := by
    intro l
    induction l with
    | nil => intro acc; simp
    | cons a t ih => intro acc; simp [ih, add_assoc]
  simpa using this parts 0

/-- A value within the range of the type is left alone by the wrap-around. -/
theorem wrapInt_of_inRange (bits : Nat) (hbits : 1 ≤ bits) (x : Int)
    (hlo : intMin bits ≤ x) (hhi : x ≤ intMax bits) : wrapInt bits x = x := by
  obtain ⟨k, rfl⟩ : ∃ k, bits = k + 1 := ⟨bits - 1, by omega⟩
  unfold intMin at hlo
  unfold intMax at hhi
  unfold wrapInt
  simp only [Nat.add_sub_cancel] at *
  have hM : ((2 ^ (k + 1) : Nat) : Int) = 2 * ((2 ^ k : Nat) : Int) := by
    rw [pow_succ]; push_cast; ring
  rw [hM]
  rw [Int.emod_eq_of_lt (by omega) (by omega)]
  omega

/-- Wrapping an intermediate sum does not change the wrapped final sum. -/
theorem wrapInt_wrapInt_add (bits : Nat) (u a : Int) :
    wrapInt bits (wrapInt bits u + a) = wrapInt bits (u + a) := by
  unfold wrapInt
  congr 1
  have : (u + ((2 ^ (bits - 1) : Nat) : Int)) % ((2 ^ bits : Nat) : Int)
      - ((2 ^ (bits - 1) : Nat) : Int) + a + ((2 ^ (bits - 1) : Nat) : Int)
      = (u + ((2 ^ (bits - 1) : Nat) : Int)) % ((2 ^ bits : Nat) : Int) + a := by ring
  rw [this, Int.emod_add_emod]
  congr 1
  ring

/-- The integer PartialSum value is the mathematical sum, wrapped once. -/
theorem PartialSumValueInt_eq_wrap (bits : Nat) (hbits : 1 ≤ bits) (parts : List Int) :
    PartialSumValueInt bits parts = wrapInt bits parts.sum := by
  have key : ∀ (l : List Int) (acc : Int),
      l.foldl (fun acc a => wrapInt bits (acc + a)) (wrapInt bits acc)
        = wrapInt bits (acc + l.sum) := by
    intro l
    induction l with
    | nil => intro acc; simp
    | cons a t ih =>
      intro acc
      simp only [List.foldl_cons, List.sum_cons]
      rw [wrapInt_wrapInt_add, ih, add_assoc]
  have hp : 1 ≤ 2 ^ (bits - 1) := Nat.one_le_two_pow
  have h0 : wrapInt bits 0 = 0 :=
    wrapInt_of_inRange bits hbits 0 (by unfold intMin; omega) (by unfold intMax; omega)
  unfold PartialSumValueInt
  have := key parts 0
  rw [h0, zero_add] at this
  exact this

/-- Truncating division by a non-zero `c` distributes over the sum of a list of
multiples of `c`, in the integers. -/
theorem tdiv_sum_of_dvd (c : Int) (hc : c ≠ 0) :
    ∀ parts : List Int, (∀ z ∈ parts, c ∣ z) →
      c ∣ parts.sum ∧ (parts.sum).tdiv c = (parts.map (fun z => z.tdiv c)).sum := by
  intro parts
  induction parts with
  | nil => intro _; simp
  | cons a t ih =>
    intro h
    obtain ⟨hd, he⟩ := ih (fun x hx => h x (List.mem_cons_of_mem _ hx))
    obtain ⟨k, hk⟩ := h a (List.mem_cons_self _ _)
    obtain ⟨l, hl⟩ := hd
    refine ⟨?_, ?_⟩
    · simp only [List.sum_cons]
      exact ⟨k + l, by rw [hk, hl]; ring⟩
    · simp only [List.sum_cons, List.map_cons]
      rw [← he, hk, hl, ← mul_add, Int.mul_tdiv_cancel_left _ hc,
        Int.mul_tdiv_cancel_left _ hc, Int.mul_tdiv_cancel_left _ hc]

/-- The exact quotient of a representable multiple of `c` is representable,
the case `INT_MIN / -1` apart. -/
theorem tdiv_inRange (bits : Nat) (s c : Int) (hc : c ≠ 0) (hdvd : c ∣ s)
    (hlo : intMin bits ≤ s) (hhi : s ≤ intMax bits)
    (hno : ¬ (s = intMin bits ∧ c = -1)) :
    intMin bits ≤ s.tdiv c ∧ s.tdiv c ≤ intMax bits := by
  obtain ⟨k, rfl⟩ := hdvd
  rw [Int.mul_tdiv_cancel_left _ hc]
  unfold intMin intMax at *
  generalize ((2 ^ (bits - 1) : Nat) : Int) = P at *
  rcases lt_or_gt_of_ne hc with hneg | hpos
  · have hc1 : c ≤ -1 := by omega
    rcases le_or_lt k 0 with hk | hk
    · constructor
      · nlinarith
      · nlinarith
    · constructor
      · nlinarith
      · by_contra hcon
        push_neg at hcon
        have h1 : c * k ≤ -k := by nlinarith
        have h2 : c * k = -P := by omega
        have h3 : k = P := by omega
        have h4 : c = -1 := by
          have : (c + 1) * k = 0 := by rw [add_mul, h2, h3]; ring
          rcases mul_eq_zero.mp this with h | h
          · omega
          · omega
        exact hno ⟨h2, h4⟩
  · have hc1 : 1 ≤ c := by omega
    rcases le_or_lt k 0 with hk | hk
    · constructor <;> nlinarith
    · constructor <;> nlinarith

/-- Counterexample for C8: on `int32_t`, two units holding the partial
contributions `1` and `1` and the divisor `2` give `(1 + 1) / 2 = 1` but
`1 / 2 + 1 / 2 = 0`. Multiples of the divisor do not suffice either: the
contributions `2^30` and `2^30` have a sum that wraps to `-2^31`, so that
dividing the sum by `2` gives `-2^30` while the quotients add up to `2^30`. -/
theorem InvokeInt_not_additive :
    (BinaryFuncDiv.InvokeInt 32 (PartialSumValueInt 32 [1, 1]) 2 = some 1 ∧
     (divEach (BinaryFuncDiv.InvokeInt 32) 2 [1, 1]).map (PartialSumValueInt 32) = some 0 ∧
     BinaryFuncDiv.InvokeInt 32 (PartialSumValueInt 32 [1, 1]) 2
       ≠ (divEach (BinaryFuncDiv.InvokeInt 32) 2 [1, 1]).map (PartialSumValueInt 32)) ∧
    (BinaryFuncDiv.InvokeInt 32 (PartialSumValueInt 32 [1073741824, 1073741824]) 2
       = some (-1073741824) ∧
     (divEach (BinaryFuncDiv.InvokeInt 32) 2 [1073741824, 1073741824]).map
       (PartialSumValueInt 32) = some 1073741824) := by
  decide

/-- C8, amended: for every number of execution units `N >= 1` and every non-zero
divisor held identically by all units, dividing the sum of the partial
contributions has a value and equals summing the divided contributions, in
exact rational arithmetic (the idealised model of the floating types, without
their rounding), and on `int32_t` and `int64_t` with C++ truncating division
when the contributions and the divisor are within the range of the type, every
contribution is a multiple of the divisor, the sum of the contributions is
within the range of the type, and no division is `INT_MIN / -1`. -/
theorem PartialSum_Broadcast_div_sound (parts : List ℚ) (b : ℚ)
    (bits : Nat) (iparts : List Int) (c : Int)
    (hN : 1 ≤ parts.length) (hb : b ≠ 0)
    (hbits : bits = 32 ∨ bits = 64)
    (hM : 1 ≤ iparts.length) (hc : c ≠ 0)
    (hrange : ∀ z ∈ iparts, intMin bits ≤ z ∧ z ≤ intMax bits)
    (hcrange : intMin bits ≤ c ∧ c ≤ intMax bits)
    (hdvd : ∀ z ∈ iparts, c ∣ z)
    (hsum : intMin bits ≤ iparts.sum ∧ iparts.sum ≤ intMax bits)
    (hmin : c = -1 → iparts.sum ≠ intMin bits ∧ ∀ z ∈ iparts, z ≠ intMin bits) :
    (BinaryFuncDiv.InvokeRat (PartialSumValueRat parts) b
        = (divEach BinaryFuncDiv.InvokeRat b parts).map PartialSumValueRat ∧
      (BinaryFuncDiv.InvokeRat (PartialSumValueRat parts) b).isSome) ∧
    (BinaryFuncDiv.InvokeInt bits (PartialSumValueInt bits iparts) c
        = (divEach (BinaryFuncDiv.InvokeInt bits) c iparts).map (PartialSumValueInt bits) ∧
      (BinaryFuncDiv.InvokeInt bits (PartialSumValueInt bits iparts) c).isSome) := by
  have hbits1 : 1 ≤ bits := by rcases hbits with h | h <;> omega
  constructor
  · have hq : ∀ x : ℚ, BinaryFuncDiv.InvokeRat x b = some (x / b) := by
      intro x
      simp [BinaryFuncDiv.InvokeRat, hb]
    have hsumdiv : ∀ l : List ℚ, l.sum / b = (l.map (fun a => a / b)).sum := by
      intro l
      induction l with
      | nil => simp
      | cons a t ih => simp [add_div, ih]
    rw [divEach_eq_map BinaryFuncDiv.InvokeRat b (fun a => a / b) parts (fun a _ => hq a),
      hq]
    simp [PartialSumValueRat_eq, hsumdiv]
  · have hS : PartialSumValueInt bits iparts = iparts.sum := by
      rw [PartialSumValueInt_eq_wrap bits hbits1,
        wrapInt_of_inRange bits hbits1 _ hsum.1 hsum.2]
    have hz : ∀ z, ¬ (z = intMin bits ∧ c = -1) →
        BinaryFuncDiv.InvokeInt bits z c = some (z.tdiv c) := by
      intro z hno
      simp [BinaryFuncDiv.InvokeInt, hc, hno]
    have hnoS : ¬ (iparts.sum = intMin bits ∧ c = -1) := fun h => (hmin h.2).1 h.1
    obtain ⟨hdS, hdist⟩ := tdiv_sum_of_dvd c hc iparts hdvd
    obtain ⟨hqlo, hqhi⟩ := tdiv_inRange bits iparts.sum c hc hdS hsum.1 hsum.2 hnoS
    have hQ : PartialSumValueInt bits (iparts.map (fun z => z.tdiv c))
        = iparts.sum.tdiv c := by
      rw [PartialSumValueInt_eq_wrap bits hbits1, ← hdist,
        wrapInt_of_inRange bits hbits1 _ hqlo hqhi]
    rw [divEach_eq_map (BinaryFuncDiv.InvokeInt bits) c (fun z => z.tdiv c) iparts
        (fun z hzmem => hz z (fun h => (hmin h.2).2 z hzmem h.1)),
      hS, hz _ hnoS]
    simp [hQ]

/-- Witness for C8: three units holding `1/2, 1/3, 5` with divisor `7`, and on
`int32_t` three units holding `6, -9, 12` with divisor `3`. -/
theorem PartialSum_Broadcast_div_sound_witness :
    (BinaryFuncDiv.InvokeRat (PartialSumValueRat [1 / 2, 1 / 3, 5]) 7
        = (divEach BinaryFuncDiv.InvokeRat 7 [1 / 2, 1 / 3, 5]).map PartialSumValueRat ∧
      (BinaryFuncDiv.InvokeRat (PartialSumValueRat [1 / 2, 1 / 3, 5]) 7).isSome) ∧
    (BinaryFuncDiv.InvokeInt 32 (PartialSumValueInt 32 [6, -9, 12]) 3
        = (divEach (BinaryFuncDiv.InvokeInt 32) 3 [6, -9, 12]).map (PartialSumValueInt 32) ∧
      (BinaryFuncDiv.InvokeInt 32 (PartialSumValueInt 32 [6, -9, 12]) 3).isSome) :=
  PartialSum_Broadcast_div_sound [1 / 2, 1 / 3, 5] 7 32 [6, -9, 12] 3
    (by decide) (by norm_num) (Or.inl rfl) (by decide) (by decide) (by decide)
    (by decide) (by decide) (by decide) (by decide)

/-- C9: for every `RtBlobDesc`, each of the four queries on the unfinished
header sub-fields ends in the `TODO()` failure and returns no value, in
particular neither `false` nor `0`. -/
theorem RtBlobDesc_unfinished_queries_fail {DataType : Type} (d : RtBlobDesc DataType) :
    (d.has_instance_available_elen_cnt = Except.error Failure.todo ∧
      ∀ v, d.has_instance_available_elen_cnt ≠ Except.ok v) ∧
    (d.has_available_instance_num = Except.error Failure.todo ∧
      ∀ v, d.has_available_instance_num ≠ Except.ok v) ∧
    (d.ByteSizeOfInstanceAvailableElemCntField = Except.error Failure.todo ∧
      ∀ v, d.ByteSizeOfInstanceAvailableElemCntField ≠ Except.ok v) ∧
    (d.ByteSizeOfAvailableInstanceNumField = Except.error Failure.todo ∧
      ∀ v, d.ByteSizeOfAvailableInstanceNumField ≠ Except.ok v) := by
  refine ⟨⟨rfl, ?_⟩, ⟨rfl, ?_⟩, ⟨rfl, ?_⟩, ⟨rfl, ?_⟩⟩ <;>
  · intro v h
    cases h

/-- The header size of a constructed descriptor is the `size_t` sum of its
data-id field size and its column-count field size. -/
theorem InitFromProto_header {DataType : Type} (w : ByteWidths DataType)
    (proto : BlobDescProto DataType) :
    (RtBlobDesc.InitFromProto w proto).ByteSizeOfBlobHeader
      = size_t ((RtBlobDesc.InitFromProto w proto).ByteSizeOfDataIdField w
          + (RtBlobDesc.InitFromProto w proto).ByteSizeOfColNumField w) := by
  simp only [RtBlobDesc.ByteSizeOfBlobHeader, RtBlobDesc.ByteSizeOfDataIdField,
    RtBlobDesc.ByteSizeOfColNumField, RtBlobDesc.has_data_id_field,
    RtBlobDesc.has_col_num_field, RtBlobDesc.InitFromProto]
  cases proto.has_data_id_field <;> cases proto.has_col_num_field <;>
    simp [size_t]

/-- C10: for every `RtBlobDesc` constructed from a logical description, through
either constructor and with any combination of the data-id and column-count
flags, `TotalByteSize()` equals `ByteSizeOfBlobHeader() + ByteSizeOfBlobBody()`
and equals `ByteSizeOfDataIdField() + ByteSizeOfColNumField() +
ByteSizeOfBlobBody()`, the sums taken in `size_t`. -/
theorem TotalByteSize_eq_sum {DataType : Type} (w : ByteWidths DataType)
    (blob_desc : BlobDesc DataType) (proto : BlobDescProto DataType) :
    ((RtBlobDesc.ofBlobDesc w blob_desc).TotalByteSize w
      = size_t ((RtBlobDesc.ofBlobDesc w blob_desc).ByteSizeOfBlobHeader
          + (RtBlobDesc.ofBlobDesc w blob_desc).ByteSizeOfBlobBody w) ∧
     (RtBlobDesc.ofBlobDesc w blob_desc).TotalByteSize w
      = size_t ((RtBlobDesc.ofBlobDesc w blob_desc).ByteSizeOfDataIdField w
          + (RtBlobDesc.ofBlobDesc w blob_desc).ByteSizeOfColNumField w
          + (RtBlobDesc.ofBlobDesc w blob_desc).ByteSizeOfBlobBody w)) ∧
    ((RtBlobDesc.ofProto w proto).TotalByteSize w
      = size_t ((RtBlobDesc.ofProto w proto).ByteSizeOfBlobHeader
          + (RtBlobDesc.ofProto w proto).ByteSizeOfBlobBody w) ∧
     (RtBlobDesc.ofProto w proto).TotalByteSize w
      = size_t ((RtBlobDesc.ofProto w proto).ByteSizeOfDataIdField w
          + (RtBlobDesc.ofProto w proto).ByteSizeOfColNumField w
          + (RtBlobDesc.ofProto w proto).ByteSizeOfBlobBody w)) := by
  have key : ∀ p : BlobDescProto DataType,
      (RtBlobDesc.InitFromProto w p).TotalByteSize w
        = size_t ((RtBlobDesc.InitFromProto w p).ByteSizeOfDataIdField w
            + (RtBlobDesc.InitFromProto w p).ByteSizeOfColNumField w
            + (RtBlobDesc.InitFromProto w p).ByteSizeOfBlobBody w) := by
    intro p
    rw [RtBlobDesc.TotalByteSize, InitFromProto_header]
    unfold size_t
    omega
  exact ⟨⟨rfl, key _⟩, ⟨rfl, key _⟩⟩

end oneflow
